import Mathlib

/-!
Verification development for the StampShot capture engine
(`src/background.js`).  The definitions below are a shallow embedding of
the source: the URL-cleaning and filename generation (lines 504-556), the
full-page tile loop (lines 77-148), the page-state save/hide/restore
protocol (lines 261-393) and the header compositor (lines 419-487).
Platform calls (scroll clamping, snapshot capture, the WHATWG URL
constructor) are modelled explicitly where the claims fix their
semantics.
-/

namespace StampShot

/-! ## Character class and URL cleaning (`cleanUrlForFilename`, lines 504-544) -/

/-- The filename character class `[a-zA-Z0-9_\-.]` of the regex on line 530. -/
def isNameChar (c : Char) : Bool :=
  (('a' ≤ c && c ≤ 'z') || ('A' ≤ c && c ≤ 'Z') || ('0' ≤ c && c ≤ '9')
    || c = '_' || c = '-' || c = '.')

/-- Models the WHATWG `new URL(url)` platform constructor (line 509) for
absolute URLs of the shape `scheme://authority/path?query#frag`: it
requires a nonempty scheme followed by `://` and a nonempty authority,
lowercases the ASCII hostname, drops userinfo and port, and the returned
pathname is the part between the authority and the first `?` or `#`
(defaulting to `/`).  Strings of any other shape make the constructor
throw, which the source catches on line 522. -/
def parseURL (url : List Char) : Option (List Char × List Char) :=
  let p := url.span (fun c => !(c = ':'))
  match p.2 with
  | ':' :: '/' :: '/' :: rest2 =>
    if p.1 = [] then none
    else
      let q := rest2.span (fun c => !(c = '/' || c = '?' || c = '#'))
      if q.1 = [] then none
      else
        let afterAt := q.1.foldl (fun acc c => if c = '@' then [] else acc ++ [c]) []
        let host := (afterAt.span (fun c => !(c = ':'))).1
        let pathOnly := (q.2.span (fun c => !(c = '?' || c = '#'))).1
        some (host.map Char.toLower, if pathOnly = [] then ['/'] else pathOnly)
  | _ => none

/-- Strips a leading `www.` (the regex `^www\.` on line 529). -/
def stripWWW : List Char → List Char
  | 'w' :: 'w' :: 'w' :: '.' :: rest => rest
  | l => l

/-- Collapses each run of two or more underscores to a single one
(the regex `_{2,}` on line 531). -/
def collapseUnd : List Char → List Char
  | [] => []
  | [c] => [c]
  | c :: d :: rest =>
    if c = '_' && d = '_' then collapseUnd (d :: rest)
    else c :: collapseUnd (d :: rest)

/-- Removes leading and trailing underscore runs (the regex `^_+|_+$`
on line 532). -/
def trimUnd (l : List Char) : List Char :=
  ((l.dropWhile (fun c => c = '_')).reverse.dropWhile (fun c => c = '_')).reverse

/-- Core of `cleanUrlForFilename` (lines 504-544) on character lists:
extract hostname and path via the URL constructor (falling back to the
raw string when parsing throws), append a length-limited path, then
apply the four cleaning regexes and the final hard truncation. -/
def cleanUrlCore (url : List Char) (maxLength : Nat) : List Char :=
  let hostname :=
    match parseURL url with
    | some (host, pathname) =>
      if pathname = ['/'] then host
      else
        let path := if pathname.head? = some '/' then pathname.tail else pathname
        let availableLength := maxLength - host.length - 1
        let path :=
          if 3 < availableLength ∧ availableLength < path.length then
            path.take availableLength
          else path
        host ++ '_' :: path
    | none => url
  let l := stripWWW hostname
  let l := l.map (fun c => if isNameChar c then c else '_')
  let l := collapseUnd l
  let l := trimUnd l
  l.take maxLength

/-- `cleanUrlForFilename` of lines 504-544 (the `catch` on line 540 is
unreachable: the cleaning pipeline is total). -/
def cleanUrlForFilename (url : String) (maxLength : Nat := 100) : String :=
  ⟨cleanUrlCore url.data maxLength⟩

example : cleanUrlForFilename "https://www.Example.com/Products?x=1" = "example.com_Products" := by
  decide

example : cleanUrlForFilename "" = "" := by decide

example : cleanUrlForFilename "http://a.b/" = "a.b" := by decide

example : cleanUrlForFilename "not a url!!" = "not_a_url" := by decide

/-! ## Filename generation (`saveScreenshot`, lines 547-556) -/

/-- Decimal digit character for a value below ten. -/
def digitChar (d : Nat) : Char := Char.ofNat (48 + d)

/-- Fuel-indexed decimal rendering; the fuel only bounds the recursion
depth and `natDigits` supplies enough of it. -/
def natDigitsAux : Nat → Nat → List Char
  | 0, _ => []
  | fuel + 1, n =>
    if n < 10 then [digitChar n]
    else natDigitsAux fuel (n / 10) ++ [digitChar (n % 10)]

/-- Decimal digit list of a natural number; models the JavaScript
number-to-string conversion of the template literal on line 556 for the
non-negative integers produced by the `Date` getters. -/
def natDigits (n : Nat) : List Char := natDigitsAux (n + 1) n

/-- Decimal string of a natural number. -/
def natStr (n : Nat) : String := ⟨natDigits n⟩

/-- Models `String(n).padStart(2, '0')` (lines 550-553). -/
def pad2 (s : String) : String :=
  if 2 ≤ s.length then s else ⟨List.replicate (2 - s.length) '0' ++ s.data⟩

/-- The capture instant as read from the `Date` getters on lines 548-553
(month already shifted to 1..12 by the source's `getMonth() + 1`). -/
structure Instant where
  year : Nat
  month : Nat
  day : Nat
  hour : Nat
  minute : Nat
deriving DecidableEq

/-- The filename computed by `saveScreenshot` (lines 548-556):
`screenshot-YYYYMMDD-HHMM-<cleaned>.png`.  This captures the whole
filename computation, which is pure: the download call that follows it
is not part of the name. -/
def screenshotFilename (url : String) (t : Instant) : String :=
  "screenshot-" ++ natStr t.year ++ pad2 (natStr t.month) ++ pad2 (natStr t.day)
    ++ "-" ++ pad2 (natStr t.hour) ++ pad2 (natStr t.minute)
    ++ "-" ++ cleanUrlForFilename url ++ ".png"

example : screenshotFilename "https://www.Example.com/Products?x=1" ⟨2026, 10, 11, 9, 5⟩
    = "screenshot-20261011-0905-example.com_Products.png" := by decide

/-! ## The filename pattern `^screenshot-\d{8}-\d{4}-[A-Za-z0-9_.-]+\.png$` -/

/-- Consumes a literal character-list from the front, returning the rest. -/
def dropLit : List Char → List Char → Option (List Char)
  | [], l => some l
  | p :: ps, c :: cs => if c = p then dropLit ps cs else none
  | _ :: _, [] => none

/-- Consumes exactly `n` characters satisfying `p`, returning the rest. -/
def takeClass : Nat → (Char → Bool) → List Char → Option (List Char)
  | 0, _, l => some l
  | n + 1, p, c :: cs => if p c then takeClass n p cs else none
  | _ + 1, _, [] => none

/-- Whether the character is an ASCII decimal digit (`\d`). -/
def isDigitChar (c : Char) : Bool := '0' ≤ c && c ≤ '9'

/-- Consumes a literal `-` from the front. -/
def expectDash : List Char → Option (List Char)
  | '-' :: l => some l
  | _ => none

/-- Checks that the tail is `<segment>.png` with the segment drawn from
the class `[A-Za-z0-9_.-]`; with `allowEmptySeg := false` the segment
must be nonempty (the regex `+`), with `true` it may be empty (`*`). -/
def segCheck (allowEmptySeg : Bool) (l5 : List Char) : Bool :=
  decide (4 ≤ l5.length) && (allowEmptySeg || decide (4 < l5.length))
    && decide (l5.drop (l5.length - 4) = ".png".data)
    && (l5.take (l5.length - 4)).all isNameChar

/-- Decides the regex `^screenshot-\d{8}-\d{4}-[A-Za-z0-9_.-]+\.png$`;
with `allowEmptySeg := true` the `+` is relaxed to `*`. -/
def matchesScreenshotPattern (allowEmptySeg : Bool) (s : String) : Bool :=
  match ((((dropLit "screenshot-".data s.data).bind
      (takeClass 8 isDigitChar)).bind expectDash).bind
      (takeClass 4 isDigitChar)).bind expectDash with
  | none => false
  | some l5 => segCheck allowEmptySeg l5

example : matchesScreenshotPattern false "screenshot-20261011-0905-example.com_Products.png" = true := by
  decide

example : matchesScreenshotPattern false "screenshot-20261011-0905-.png" = false := by decide

example : matchesScreenshotPattern true "screenshot-20261011-0905-.png" = true := by decide

/-! ## Safety of the cleaning pipeline -/

theorem collapseUnd_sublist : ∀ l : List Char, List.Sublist (collapseUnd l) l
  | [] => by simp [collapseUnd]
  | [c] => by simp [collapseUnd]
  | c :: d :: rest => by
    rw [collapseUnd]
    split
    · exact (collapseUnd_sublist (d :: rest)).cons c
    · exact (collapseUnd_sublist (d :: rest)).cons₂ c

theorem trimUnd_sublist (l : List Char) : List.Sublist (trimUnd l) l := by
  unfold trimUnd
  have h1 : List.Sublist (l.dropWhile (fun c => c = '_')) l := List.dropWhile_sublist _
  have h2 : List.Sublist ((l.dropWhile (fun c => c = '_')).reverse.dropWhile (fun c => c = '_'))
      (l.dropWhile (fun c => c = '_')).reverse := List.dropWhile_sublist _
  have h3 := h2.reverse
  rw [List.reverse_reverse] at h3
  exact h3.trans h1

theorem cleanUrlCore_all (url : List Char) (maxLength : Nat) :
    (cleanUrlCore url maxLength).all isNameChar = true := by
  unfold cleanUrlCore
  set hostname :=
    match parseURL url with
    | some (host, pathname) =>
      if pathname = ['/'] then host
      else
        let path := if pathname.head? = some '/' then pathname.tail else pathname
        let availableLength := maxLength - host.length - 1
        let path :=
          if 3 < availableLength ∧ availableLength < path.length then
            path.take availableLength
          else path
        host ++ '_' :: path
    | none => url with hh
  have hmap : ((stripWWW hostname).map
      (fun c => if isNameChar c then c else '_')).all isNameChar = true := by
    rw [List.all_eq_true]
    intro x hx
    rcases List.mem_map.mp hx with ⟨c, _, rfl⟩
    by_cases h : isNameChar c = true
    · simp [h]
    · simp only [h]
      simp [isNameChar]
  have hsub : List.Sublist
      (trimUnd (collapseUnd ((stripWWW hostname).map
        (fun c => if isNameChar c then c else '_'))))
      ((stripWWW hostname).map (fun c => if isNameChar c then c else '_')) := by
    exact ((trimUnd_sublist _).trans (collapseUnd_sublist _))
  rw [List.all_eq_true] at hmap ⊢
  intro x hx
  exact hmap x (hsub.subset ((List.take_sublist _ _).subset hx))

/-- Claim C10: `cleanUrlForFilename` always terminates (it is a total
function of this embedding), returns only characters of the class
`[A-Za-z0-9_.-]`, respects the length bound, and can return the empty
string (witnessed by the empty URL); the `"webpage"` fallback branch of
line 542 is unreachable because the pipeline never throws. -/
theorem cleanUrlForFilename_safe (url : String) (maxLength : Nat) :
    (cleanUrlForFilename url maxLength).length ≤ maxLength ∧
    (cleanUrlForFilename url maxLength).data.all isNameChar = true ∧
    cleanUrlForFilename "" = "" := by
  refine ⟨?_, ?_, by decide⟩
  · show (cleanUrlCore url.data maxLength).length ≤ maxLength
    unfold cleanUrlCore
    exact List.length_take_le _ _
  · exact cleanUrlCore_all url.data maxLength

/-! ## Digit lemmas for the filename pattern -/

theorem digitChar_digit (d : Nat) (hd : d < 10) : isDigitChar (digitChar d) = true := by
  interval_cases d <;> decide

theorem natDigitsAux_digits : ∀ fuel n, n < fuel →
    (natDigitsAux fuel n).all isDigitChar = true := by
  intro fuel
  induction fuel with
  | zero => intro n h; omega
  | succ fuel ih =>
    intro n h
    rw [natDigitsAux]
    split
    · next h10 => simp [digitChar_digit n h10]
    · next h10 =>
      have hdiv : n / 10 < n := Nat.div_lt_self (by omega) (by omega)
      rw [List.all_append]
      have := ih (n / 10) (by omega)
      simp [this, digitChar_digit (n % 10) (Nat.mod_lt n (by omega))]

theorem natDigitsAux_len_le : ∀ fuel n k, n < fuel → n < 10 ^ k → 0 < k →
    (natDigitsAux fuel n).length ≤ k := by
  intro fuel
  induction fuel with
  | zero => intro n k h; omega
  | succ fuel ih =>
    intro n k h hnk hk
    rw [natDigitsAux]
    split
    · simpa using hk
    · next h10 =>
      have hdiv : n / 10 < n := Nat.div_lt_self (by omega) (by omega)
      have hk2 : 2 ≤ k := by
        by_contra hc
        have : k = 1 := by omega
        subst this
        simp at hnk
        omega
      have hquot : n / 10 < 10 ^ (k - 1) := by
        rw [Nat.div_lt_iff_lt_mul (by omega)]
        calc n < 10 ^ k := hnk
        _ = 10 ^ (k - 1) * 10 := by
          rw [← Nat.pow_succ]
          congr 1
          omega
      have := ih (n / 10) (k - 1) (by omega) hquot (by omega)
      simp only [List.length_append, List.length_cons, List.length_nil]
      omega

theorem natDigitsAux_len_ge : ∀ fuel n k, n < fuel → 10 ^ k ≤ n →
    k + 1 ≤ (natDigitsAux fuel n).length := by
  intro fuel
  induction fuel with
  | zero => intro n k h; omega
  | succ fuel ih =>
    intro n k h hnk
    rw [natDigitsAux]
    split
    · next h10 =>
      have : k = 0 := by
        by_contra hc
        have : 10 ≤ 10 ^ k := by
          calc (10:Nat) = 10 ^ 1 := by norm_num
          _ ≤ 10 ^ k := Nat.pow_le_pow_right (by omega) (by omega)
        omega
      simp [this]
    · next h10 =>
      have hdiv : n / 10 < n := Nat.div_lt_self (by omega) (by omega)
      match k with
      | 0 =>
        simp only [List.length_append, List.length_cons, List.length_nil]
        omega
      | s + 1 =>
        have hquot : 10 ^ s ≤ n / 10 := by
          rw [Nat.le_div_iff_mul_le (by omega)]
          calc 10 ^ s * 10 = 10 ^ (s + 1) := by rw [Nat.pow_succ]
          _ ≤ n := hnk
        have := ih (n / 10) s (by omega) hquot
        simp only [List.length_append, List.length_cons, List.length_nil]
        omega

theorem natStr_year (y : Nat) (h1 : 1000 ≤ y) (h2 : y < 10000) :
    (natStr y).data.length = 4 ∧ (natStr y).data.all isDigitChar = true := by
  constructor
  · have hle := natDigitsAux_len_le (y + 1) y 4 (by omega) (by norm_num; omega) (by omega)
    have hge := natDigitsAux_len_ge (y + 1) y 3 (by omega) (by norm_num; omega)
    show (natDigits y).length = 4
    unfold natDigits
    omega
  · exact natDigitsAux_digits (y + 1) y (by omega)

theorem pad2_small (m : Nat) (hm : m < 100) :
    (pad2 (natStr m)).data.length = 2 ∧ (pad2 (natStr m)).data.all isDigitChar = true := by
  have hle : (natDigits m).length ≤ 2 :=
    natDigitsAux_len_le (m + 1) m 2 (by omega) (by norm_num; omega) (by omega)
  have hge : 1 ≤ (natDigits m).length := by
    rcases Nat.eq_zero_or_pos m with h0 | h0
    · subst h0; decide
    · have := natDigitsAux_len_ge (m + 1) m 0 (by omega) (by simpa using h0)
      simpa [natDigits] using this
  have hdig : (natDigits m).all isDigitChar = true := natDigitsAux_digits (m + 1) m (by omega)
  unfold pad2 natStr
  by_cases h : 2 ≤ (String.mk (natDigits m)).length
  · have h2 : (natDigits m).length = 2 := by
      have : (String.mk (natDigits m)).length = (natDigits m).length := rfl
      omega
    simp [h, h2, hdig]
  · have h2 : (natDigits m).length = 1 := by
      have : (String.mk (natDigits m)).length = (natDigits m).length := rfl
      omega
    rw [if_neg h]
    constructor
    · simp [h2]
    · simp only [String.data]
      rw [List.all_append, Bool.and_eq_true]
      constructor
      · rw [List.all_eq_true]
        intro c hc
        have := List.eq_of_mem_replicate hc
        subst this
        decide
      · exact hdig

theorem str_append_data (a b : String) : (a ++ b).data = a.data ++ b.data := rfl

theorem dropLit_append : ∀ lit r : List Char, dropLit lit (lit ++ r) = some r
  | [], r => rfl
  | c :: cs, r => by simp [dropLit, dropLit_append cs r]

theorem takeClass_append (p : Char → Bool) : ∀ l r : List Char, l.all p = true →
    takeClass l.length p (l ++ r) = some r
  | [], r, _ => rfl
  | c :: cs, r, h => by
    rw [List.all_cons, Bool.and_eq_true] at h
    simp [takeClass, h.1, takeClass_append p cs r h.2]

theorem matchesScreenshotPattern_build (s : String) (d8 d4 seg : List Char)
    (hs : s.data = "screenshot-".data ++ (d8 ++ '-' :: (d4 ++ '-' :: (seg ++ ".png".data))))
    (h8 : d8.length = 8) (h8d : d8.all isDigitChar = true)
    (h4 : d4.length = 4) (h4d : d4.all isDigitChar = true)
    (hseg : seg.all isNameChar = true) :
    matchesScreenshotPattern true s = true := by
  unfold matchesScreenshotPattern
  rw [hs, dropLit_append, Option.some_bind, ← h8, takeClass_append _ _ _ h8d,
    Option.some_bind]
  rw [show expectDash ('-' :: (d4 ++ '-' :: (seg ++ ".png".data)))
      = some (d4 ++ '-' :: (seg ++ ".png".data)) from rfl, Option.some_bind,
    ← h4, takeClass_append _ _ _ h4d, Option.some_bind]
  rw [show expectDash ('-' :: (seg ++ ".png".data)) = some (seg ++ ".png".data) from rfl]
  show segCheck true (seg ++ ".png".data) = true
  unfold segCheck
  simp only [List.length_append]
  have hpng : (".png".data).length = 4 := rfl
  rw [hpng, Nat.add_sub_cancel]
  have hdrop : (seg ++ ".png".data).drop seg.length = ".png".data := List.drop_left _ _
  have htake : (seg ++ ".png".data).take seg.length = seg := List.take_left _ _
  simp [hdrop, htake, hseg, Nat.le_add_left]

/-- Claim C7 (amended): the filename generation is a pure function of
the (URL, instant) pair — determinism holds by construction of this
embedding — and for every URL and every instant with in-range date
fields the generated name matches
`^screenshot-\d{8}-\d{4}-[A-Za-z0-9_.-]*\.png$`; the claimed `+` had to
be relaxed to `*` because the cleaned URL segment can be empty. -/
theorem screenshotFilename_wellFormed (url : String) (t : Instant)
    (hy1 : 1000 ≤ t.year) (hy2 : t.year < 10000)
    (hm : t.month < 100) (hd : t.day < 100)
    (hho : t.hour < 100) (hmi : t.minute < 100) :
    matchesScreenshotPattern true (screenshotFilename url t) = true := by
  obtain ⟨hylen, hydig⟩ := natStr_year t.year hy1 hy2
  obtain ⟨hmlen, hmdig⟩ := pad2_small t.month hm
  obtain ⟨hdlen, hddig⟩ := pad2_small t.day hd
  obtain ⟨hhlen, hhdig⟩ := pad2_small t.hour hho
  obtain ⟨hmilen, hmidig⟩ := pad2_small t.minute hmi
  apply matchesScreenshotPattern_build (screenshotFilename url t)
    ((natStr t.year).data ++ ((pad2 (natStr t.month)).data ++ (pad2 (natStr t.day)).data))
    ((pad2 (natStr t.hour)).data ++ (pad2 (natStr t.minute)).data)
    (cleanUrlForFilename url).data
  · show (screenshotFilename url t).data = _
    unfold screenshotFilename
    simp only [str_append_data, List.append_assoc]
    rfl
  · simp only [List.length_append]
    omega
  · simp only [List.all_append, Bool.and_eq_true]
    exact ⟨hydig, hmdig, hddig⟩
  · simp only [List.length_append]
    omega
  · simp only [List.all_append, Bool.and_eq_true]
    exact ⟨hhdig, hmidig⟩
  · exact cleanUrlCore_all url.data 100

/-- Claim C7, counterexample to the literal pattern: the empty URL cleans
to the empty segment, and the resulting filename has nothing between the
final `-` and `.png`, which `[A-Za-z0-9_.-]+` rejects. -/
theorem screenshotFilename_empty_cex :
    screenshotFilename "" ⟨2025, 1, 2, 3, 4⟩ = "screenshot-20250102-0304-.png" ∧
    matchesScreenshotPattern false (screenshotFilename "" ⟨2025, 1, 2, 3, 4⟩) = false := by
  constructor <;> decide

/-- Witness for `screenshotFilename_wellFormed` at a concrete instant. -/
theorem screenshotFilename_wellFormed_witness :
    1000 ≤ 2026 ∧ 2026 < 10000 ∧ 10 < 100 ∧ 11 < 100 ∧ 9 < 100 ∧ 5 < 100 ∧
    matchesScreenshotPattern true
      (screenshotFilename "https://www.Example.com/Products?x=1" ⟨2026, 10, 11, 9, 5⟩) = true :=
  ⟨by decide, by decide, by decide, by decide, by decide, by decide,
    screenshotFilename_wellFormed "https://www.Example.com/Products?x=1"
      ⟨2026, 10, 11, 9, 5⟩ (by decide) (by decide) (by decide) (by decide)
      (by decide) (by decide)⟩

/-! ## Claim C3: the concrete URL scenario -/

/-- Claim C3, counterexample: the URL constructor's `pathname` excludes
the query string, so for `https://www.Example.com/Products?x=1` the
cleaned segment is `example.com_Products` — the characters of `?x=1`
are dropped before the character-class cleaning ever sees them, and no
`Productsx1`-style suffix remains. -/
theorem cleanUrl_query_cex :
    cleanUrlForFilename "https://www.Example.com/Products?x=1" = "example.com_Products" ∧
    cleanUrlForFilename "https://www.Example.com/Products?x=1" ≠ "example.com_Productsx1" ∧
    (cleanUrlForFilename "https://www.Example.com/Products?x=1").data.drop
      ((cleanUrlForFilename "https://www.Example.com/Products?x=1").data.length - 2)
      ≠ "x1".data := by
  refine ⟨by decide, by decide, by decide⟩

/-- Claim C3 (amended): for `https://www.Example.com/Products?x=1` the
cleaned source segment is `example.com_Products`: the URL parser
lowercases the host and drops the query (`?x=1` is not part of
`pathname`), the leading `www.` is stripped, every character outside
`[A-Za-z0-9_.-]` would become `_`, and repeated underscores are
collapsed. -/
theorem cleanUrl_concrete :
    cleanUrlForFilename "https://www.Example.com/Products?x=1" = "example.com_Products" := by
  decide

/-! ## The full-page tile loop (`captureFullPageScreenshot`, lines 77-148)

The loop is embedded with an explicit step budget (`fuel`): `none` means
the loop did not finish within the budget, so a `some` result at a given
budget is a termination witness.  Scrolling follows the clamped-scroll
platform model fixed by the spec: the actual position reported by
`getScrollPosition` after `scrollTo(x, y)` is
`min requested (pageSize - viewportSize)` in each axis (truncated
subtraction supplies the `max 0`).  Platform failures of the scroll
injection and of `captureVisibleTab` are modelled by an oracle indexed
by the tile ordinal; `restoreErr` models a failing restore step. -/

/-- Events of one capture session, in the order they are performed. -/
inductive Ev where
  | scrollReq (x y : Nat)
  | settle
  | hideCall
  | capture (x y : Nat) (hidden : Bool)
deriving DecidableEq

/-- Outcome oracle for the platform calls of a session. -/
structure Oracle where
  scrollErr : Nat → Option String
  captureErr : Nat → Option String
  restoreErr : Option String

/-- The oracle under which every platform call succeeds. -/
def cleanOracle : Oracle := ⟨fun _ => none, fun _ => none, none⟩

/-- The oracle under which exactly one platform call fails: the scroll
injection (`isScroll = true`) or the snapshot (`isScroll = false`) of
tile `k`, with message `m`; `rerr` additionally makes the restore step
fail. -/
def failAt (isScroll : Bool) (k : Nat) (m : String) (rerr : Option String) : Oracle :=
  { scrollErr := fun i => if isScroll && i == k then some m else none,
    captureErr := fun i => if !isScroll && i == k then some m else none,
    restoreErr := rerr }

/-- The inner `while (currentY < height)` loop of lines 97-128, for one
column: scroll request, settle delay, clamped position read-back, the
hide call from the second tile of the session onward, snapshot, then
`currentY += tab.height`.  Returns the final `currentX`, the
`isFirstCapture` flag, the next tile ordinal and the event trace. -/
def innerTileLoop (o : Oracle) (W H w h : Nat) :
    Nat → Nat → Nat → Bool → Nat → Option (Except String (Nat × Bool × Nat × List Ev))
  | 0, _, _, _, _ => none
  | fi + 1, x, y, first, idx =>
    if y < H then
      match o.scrollErr idx with
      | some e => some (.error e)
      | none =>
        let xc := min x (W - w)
        let yc := min y (H - h)
        let hid := !first
        match o.captureErr idx with
        | some e => some (.error e)
        | none =>
          match innerTileLoop o W H w h fi xc (yc + h) false (idx + 1) with
          | none => none
          | some (.error e) => some (.error e)
          | some (.ok (xf, ff, idxf, evs)) =>
            some (.ok (xf, ff, idxf,
              Ev.scrollReq x y :: Ev.settle ::
                ((if hid then [Ev.hideCall] else []) ++ Ev.capture xc yc hid :: evs)))
    else some (.ok (x, first, idx, []))

/-- The outer `while (currentX < width)` loop of lines 94-131: each
column starts at `currentY = 0`, and `currentX += tab.width` afterwards
(note that the inner loop overwrote `currentX` with the clamped
position). -/
def outerTileLoop (o : Oracle) (W H w h : Nat) :
    Nat → Nat → Nat → Bool → Nat → Option (Except String (List Ev))
  | 0, _, _, _, _ => none
  | fo + 1, fi, x, first, idx =>
    if x < W then
      match innerTileLoop o W H w h fi x 0 first idx with
      | none => none
      | some (.error e) => some (.error e)
      | some (.ok (xf, ff, idxf, evs)) =>
        match outerTileLoop o W H w h fo fi (xf + w) ff idxf with
        | none => none
        | some (.error e) => some (.error e)
        | some (.ok evs2) => some (.ok (evs ++ evs2))
    else some (.ok [])

/-- A canvas, reduced to its dimensions (the pixel contents are not
needed by any claim). -/
structure Canvas where
  width : Nat
  height : Nat
deriving DecidableEq

/-- `addHeaderToScreenshot` (lines 419-427): a new canvas of the same
width and `height + headerHeight` with `headerHeight = 50`. -/
def addHeaderToScreenshot (c : Canvas) : Canvas :=
  ⟨c.width, c.height + 50⟩

/-- `captureFullPageScreenshot` (lines 77-148): canvas sized to the page
(lines 82-85), the tile loop, then one restore attempt.  On a loop error
the `catch` of lines 138-148 makes exactly one restore attempt, swallows
a failure of that attempt (lines 144-146) and rethrows the original
error.  On the success path the restore of lines 134-135 runs inside the
`try`, so its own failure lands in the same `catch` (a second attempt,
then the restore error is rethrown).  The returned number counts restore
attempts. -/
def captureFullPageScreenshot (o : Oracle) (W H w h : Nat) :
    Option (Except String (Canvas × List Ev) × Nat) :=
  match outerTileLoop o W H w h (W + 1) (H + 1) 0 true 0 with
  | none => none
  | some (.error e) => some (.error e, 1)
  | some (.ok evs) =>
    match o.restoreErr with
    | none => some (.ok (⟨W, H⟩, evs), 1)
    | some re => some (.error re, 2)

/-- The uniform result record of `captureScreenshot` (lines 55-74). -/
structure CapResult where
  success : Bool
  message : String
deriving DecidableEq

/-- `captureScreenshot` (lines 55-74) for the full-page path: every
internal error is caught and converted into `{success:false, message}`;
on success the header compositor and the save step follow (modelled as
succeeding, with an empty message standing for the success payload). -/
def captureScreenshot (o : Oracle) (W H w h : Nat) : Option (CapResult × Nat) :=
  match captureFullPageScreenshot o W H w h with
  | none => none
  | some (.error e, n) => some (⟨false, e⟩, n)
  | some (.ok _, n) => some (⟨true, ""⟩, n)

/-- The composite canvas handed to `toDataURL` on line 67: the loop's
canvas with the header band added (line 66). -/
def sessionComposite (o : Oracle) (W H w h : Nat) : Option Canvas :=
  match captureFullPageScreenshot o W H w h with
  | some (.ok (cv, _), _) => some (addHeaderToScreenshot cv)
  | _ => none

/-- The captured tiles of a trace: actual (clamped) position and whether
fixed elements were hidden for that tile. -/
def capturesOf (evs : List Ev) : List (Nat × Nat × Bool) :=
  evs.filterMap (fun e =>
    match e with
    | .capture x y hid => some (x, y, hid)
    | _ => none)

/-- Ceiling division. -/
def cdiv (a b : Nat) : Nat := (a + b - 1) / b

example : cdiv 3000 1000 = 3 ∧ cdiv 4000 800 = 5 ∧ cdiv 1000 800 = 2 := by decide

/-- Sanity check: a 3000x4000 page under a 1000x800 viewport yields 15
tiles. -/
example :
    (match outerTileLoop cleanOracle 3000 4000 1000 800 3001 4001 0 true 0 with
      | some (.ok evs) => some (capturesOf evs).length
      | _ => none) = some 15 := by decide

/-- Sanity check: capture order is column-major, first tile unhidden. -/
example :
    (match outerTileLoop cleanOracle 2000 1600 1000 800 2001 1601 0 true 0 with
      | some (.ok evs) => some (capturesOf evs)
      | _ => none)
    = some [(0, 0, false), (0, 800, true), (1000, 0, true), (1000, 800, true)] := by
  decide

/-- Sanity check: a snapshot failure at tile ordinal 6 (the seventh
tile) aborts with the platform message and one restore attempt. -/
example :
    captureScreenshot (failAt false 6 "boom" none) 3000 4000 1000 800
      = some (⟨false, "boom"⟩, 1) := by decide

/-! ## Order, hiding and sequencing predicates on traces -/

/-- Strict column-major order on tiles: the column anchor grows, and
within one column the row anchor grows. -/
def colMajorLt (a b : Nat × Nat × Bool) : Prop :=
  a.1 < b.1 ∨ (a.1 = b.1 ∧ a.2.1 < b.2.1)

/-- Strict row-major order on tiles, as claimed: all tiles of one row
(`y` equal) from left to right before any tile of the next row. -/
def rowMajorLt (a b : Nat × Nat × Bool) : Prop :=
  a.2.1 < b.2.1 ∨ (a.2.1 = b.2.1 ∧ a.1 < b.1)

/-- The session's hide discipline: the first captured tile has fixed
elements hidden iff the session no longer is on its first capture, and
every later tile has them hidden. -/
def HiddenPat (first : Bool) : List (Nat × Nat × Bool) → Prop
  | [] => True
  | t :: rest => t.2.2 = !first ∧ ∀ u ∈ rest, u.2.2 = true

/-- Sequencing shape of a trace with hide calls removed: a concatenation
of `scrollReq; settle; capture` blocks, so a tile's snapshot is always
preceded by its own scroll and settle, and the next tile's scroll comes
only after it. -/
def seqPat : List Ev → Bool
  | [] => true
  | Ev.scrollReq _ _ :: Ev.settle :: Ev.capture _ _ _ :: rest => seqPat rest
  | _ => false

/-- Every event except the hide call. -/
def notHide (e : Ev) : Bool :=
  match e with
  | Ev.hideCall => false
  | _ => true

theorem seqPat_append : ∀ a b : List Ev, seqPat a = true → seqPat b = true →
    seqPat (a ++ b) = true := by
  intro a
  induction a using seqPat.induct with
  | case1 => intro b _ hb; simpa using hb
  | case2 x y u v hd rest ih =>
    intro b ha hb
    rw [seqPat] at ha
    simpa [seqPat] using ih b ha hb
  | case3 l h1 h2 =>
    intro b ha
    rw [seqPat] at ha
    · exact absurd ha (by simp)
    · exact h1
    · exact h2

theorem hiddenPat_false_all (l : List (Nat × Nat × Bool)) (h : HiddenPat false l) :
    ∀ u ∈ l, u.2.2 = true := by
  match l, h with
  | [], _ => intro u hu; cases hu
  | t :: rest, ⟨h1, h2⟩ =>
    intro u hu
    rcases List.mem_cons.mp hu with rfl | hu
    · simpa using h1
    · exact h2 u hu

theorem capturesOf_skip (hid : Bool) (rest : List Ev) :
    capturesOf ((if hid then [Ev.hideCall] else []) ++ rest) = capturesOf rest := by
  cases hid <;> simp [capturesOf]

theorem filter_notHide_skip (hid : Bool) (rest : List Ev) :
    ((if hid then [Ev.hideCall] else []) ++ rest).filter notHide = rest.filter notHide := by
  cases hid <;> simp [notHide]

theorem filter_notHide_block (x y xc yc : Nat) (hid : Bool) (evs : List Ev) :
    (Ev.scrollReq x y :: Ev.settle :: ((if hid then [Ev.hideCall] else [])
      ++ Ev.capture xc yc hid :: evs)).filter notHide
    = Ev.scrollReq x y :: Ev.settle :: Ev.capture xc yc hid :: evs.filter notHide := by
  cases hid <;> simp [notHide]

theorem seqPat_block (x y u v : Nat) (hid : Bool) (rest : List Ev) :
    seqPat (Ev.scrollReq x y :: Ev.settle :: Ev.capture u v hid :: rest) = seqPat rest := rfl

/-! ## Arithmetic of the tile grid -/

theorem cdiv_eq_zero_iff (a b : Nat) (hb : 0 < b) : cdiv a b = 0 ↔ a = 0 := by
  unfold cdiv
  rw [Nat.div_eq_zero_iff (by omega)]
  omega

theorem cdiv_succ (a b : Nat) (ha : 0 < a) (hb : 0 < b) :
    cdiv a b = cdiv (a - b) b + 1 := by
  unfold cdiv
  rcases le_or_lt b a with hba | hba
  · have heq : a + b - 1 = (a - b + b - 1) + b := by omega
    rw [heq, Nat.add_div_right _ hb]
  · have h0 : a - b = 0 := by omega
    rw [h0]
    have h1 : (a + b - 1) / b = 1 := by
      apply Nat.div_eq_of_lt_le
      · omega
      · simpa [Nat.succ_mul] using by omega
    have h2 : (0 + b - 1) / b = 0 := Nat.div_eq_of_lt (by omega)
    omega

theorem cdiv_lt_succ (a b : Nat) (hb : 0 < b) : cdiv a b < a + 1 := by
  unfold cdiv
  rw [Nat.div_lt_iff_lt_mul hb]
  have h1 : a ≤ a * b := Nat.le_mul_of_pos_right a hb
  have h2 : (a + 1) * b = a * b + b := by ring
  rw [h2]
  set c := a * b
  omega

/-- Full characterisation of one column of the tile loop under the
clean oracle: it succeeds within fuel `fi`, captures `cdiv (H - y) h`
tiles at the clamped column anchor with strictly increasing row anchors,
obeys the hide discipline, and its trace is a sequence of
scroll/settle/capture blocks. -/
theorem innerTileLoop_clean (W H w h : Nat) (hh : 0 < h) :
    ∀ fi x y first idx, cdiv (H - y) h < fi →
    ∃ evs,
      innerTileLoop cleanOracle W H w h fi x y first idx =
        some (.ok ((if cdiv (H - y) h = 0 then x else min x (W - w)),
                   (first && decide (cdiv (H - y) h = 0)),
                   idx + cdiv (H - y) h, evs)) ∧
      (capturesOf evs).length = cdiv (H - y) h ∧
      (∀ t ∈ capturesOf evs, t.1 = min x (W - w)) ∧
      (∀ t ∈ capturesOf evs, min y (H - h) ≤ t.2.1) ∧
      List.Pairwise (fun a b => a.2.1 < b.2.1) (capturesOf evs) ∧
      HiddenPat first (capturesOf evs) ∧
      seqPat (evs.filter notHide) = true := by
  intro fi
  induction fi with
  | zero => intro x y first idx hfi; omega
  | succ fi ih =>
    intro x y first idx hfi
    by_cases hy : y < H
    case neg =>
      have hn : cdiv (H - y) h = 0 := by
        rw [cdiv_eq_zero_iff _ _ hh]
        omega
      refine ⟨[], ?_, ?_, ?_, ?_, ?_, ?_, ?_⟩ <;>
        simp [innerTileLoop, hy, hn, capturesOf, HiddenPat, seqPat]
    case pos =>
      have hHy : 0 < H - y := by omega
      have hn : cdiv (H - y) h = cdiv (H - y - h) h + 1 := cdiv_succ _ _ hHy hh
      have hclamp : H - (min y (H - h) + h) = H - y - h := by omega
      have hn0 : ¬ (cdiv (H - y) h = 0) := by omega
      have hfi2 : cdiv (H - (min y (H - h) + h)) h < fi := by
        rw [hclamp]; omega
      obtain ⟨evs, heq, hlen, hxs, hylb, hpw, hhid, hseq⟩ :=
        ih (min x (W - w)) (min y (H - h) + h) false (idx + 1) hfi2
      have hminmin : min (min x (W - w)) (W - w) = min x (W - w) := by omega
      have hcap : capturesOf (Ev.scrollReq x y :: Ev.settle ::
          ((if !first then [Ev.hideCall] else [])
            ++ Ev.capture (min x (W - w)) (min y (H - h)) (!first) :: evs))
          = (min x (W - w), min y (H - h), !first) :: capturesOf evs := by
        rw [capturesOf, List.filterMap_cons, List.filterMap_cons]
        simp only []
        rw [show List.filterMap (fun e => match e with
            | Ev.capture x y hid => some (x, y, hid)
            | _ => none) ((if !first then [Ev.hideCall] else [])
            ++ Ev.capture (min x (W - w)) (min y (H - h)) (!first) :: evs)
            = capturesOf ((if !first then [Ev.hideCall] else [])
              ++ Ev.capture (min x (W - w)) (min y (H - h)) (!first) :: evs) from rfl]
        rw [capturesOf_skip]
        rfl
      have hrest_all : ∀ u ∈ capturesOf evs, u.2.2 = true := hiddenPat_false_all _ hhid
      refine ⟨Ev.scrollReq x y :: Ev.settle ::
          ((if !first then [Ev.hideCall] else [])
            ++ Ev.capture (min x (W - w)) (min y (H - h)) (!first) :: evs),
        ?_, ?_, ?_, ?_, ?_, ?_, ?_⟩
      · rw [innerTileLoop]
        rw [if_pos hy]
        simp only [show cleanOracle.scrollErr idx = none from rfl,
          show cleanOracle.captureErr idx = none from rfl]
        rw [heq]
        have hx_eq : (if cdiv (H - (min y (H - h) + h)) h = 0 then min x (W - w)
            else min (min x (W - w)) (W - w))
            = (if cdiv (H - y) h = 0 then x else min x (W - w)) := by
          rw [hminmin, ite_self, if_neg hn0]
        have hff : (false && decide (cdiv (H - (min y (H - h) + h)) h = 0))
            = (first && decide (cdiv (H - y) h = 0)) := by
          simp [hn0]
        have hidx : idx + 1 + cdiv (H - (min y (H - h) + h)) h = idx + cdiv (H - y) h := by
          rw [hclamp]; omega
        rw [hx_eq, hff, hidx]
      · rw [hcap, List.length_cons, hlen, hclamp]
        omega
      · rw [hcap]
        intro t ht
        rcases List.mem_cons.mp ht with rfl | ht
        · rfl
        · rw [hxs t ht, hminmin]
      · rw [hcap]
        intro t ht
        rcases List.mem_cons.mp ht with rfl | ht
        · simp
        · have := hylb t ht
          omega
      · rw [hcap]
        refine List.Pairwise.cons ?_ hpw
        intro t ht
        show min y (H - h) < t.2.1
        have hne : (capturesOf evs).length ≠ 0 := by
          intro h0
          rw [List.length_eq_zero] at h0
          rw [h0] at ht
          cases ht
        have hn'pos : 0 < cdiv (H - (min y (H - h) + h)) h := by omega
        have hlt : min y (H - h) + h < H := by
          by_contra hge
          have h0 : H - (min y (H - h) + h) = 0 := by omega
          rw [h0] at hn'pos
          have hz : cdiv 0 h = 0 := (cdiv_eq_zero_iff 0 h hh).mpr rfl
          omega
        have := hylb t ht
        omega
      · rw [hcap]
        exact ⟨rfl, hrest_all⟩
      · rw [filter_notHide_block, seqPat_block]
        exact hseq

/-- Full characterisation of the outer tile loop under the clean
oracle: it succeeds, captures `cdiv (W - x) w * cdiv H h` tiles in
strict column-major order, every capture's column anchor is at least
the clamp of the current one, the hide discipline holds, and the trace
is a sequence of scroll/settle/capture blocks. -/
theorem outerTileLoop_clean (W H w h : Nat) (hw : 0 < w) (hh : 0 < h) :
    ∀ fo fi x first idx, cdiv (W - x) w < fo → cdiv H h < fi →
    ∃ evs,
      outerTileLoop cleanOracle W H w h fo fi x first idx = some (.ok evs) ∧
      (capturesOf evs).length = cdiv (W - x) w * cdiv H h ∧
      List.Pairwise colMajorLt (capturesOf evs) ∧
      (∀ t ∈ capturesOf evs, min x (W - w) ≤ t.1) ∧
      HiddenPat first (capturesOf evs) ∧
      seqPat (evs.filter notHide) = true := by
  intro fo
  induction fo with
  | zero => intro fi x first idx hfo; omega
  | succ fo ih =>
    intro fi x first idx hfo hfi
    by_cases hx : x < W
    case neg =>
      have hm : cdiv (W - x) w = 0 := by
        rw [cdiv_eq_zero_iff _ _ hw]
        omega
      refine ⟨[], ?_, ?_, ?_, ?_, ?_, ?_⟩ <;>
        simp [outerTileLoop, hx, hm, capturesOf, HiddenPat, seqPat]
    case pos =>
      have hWx : 0 < W - x := by omega
      have hmstep : cdiv (W - x) w = cdiv (W - x - w) w + 1 := cdiv_succ _ _ hWx hw
      have hfi0 : cdiv (H - 0) h < fi := by simpa using hfi
      obtain ⟨evsI, heqI, hlenI, hxsI, hylbI, hpwI, hhidI, hseqI⟩ :=
        innerTileLoop_clean W H w h hh fi x 0 first idx hfi0
      simp only [Nat.sub_zero] at heqI hlenI hxsI hylbI hpwI hhidI hseqI
      by_cases hH0 : cdiv H h = 0
      case pos =>
        -- every column is empty: H = 0, no captures anywhere
        rw [if_pos hH0] at heqI
        have hff : (first && decide (cdiv H h = 0)) = first := by simp [hH0]
        rw [hff] at heqI
        have hcapI : capturesOf evsI = [] := by
          rw [← List.length_eq_zero, hlenI, hH0]
        have hXnext : W - (x + w) = W - x - w := by omega
        have hfo2 : cdiv (W - (x + w)) w < fo := by rw [hXnext]; omega
        obtain ⟨evs2, heq2, hlen2, hpw2, hxlb2, hhid2, hseq2⟩ :=
          ih fi (x + w) first (idx + cdiv H h) hfo2 hfi
        refine ⟨evsI ++ evs2, ?_, ?_, ?_, ?_, ?_, ?_⟩
        · rw [outerTileLoop, if_pos hx, heqI]
          show (match outerTileLoop cleanOracle W H w h fo fi (x + w) first (idx + cdiv H h) with
            | none => none
            | some (Except.error e) => some (Except.error e)
            | some (Except.ok evsB) => some (Except.ok (evsI ++ evsB)))
            = some (Except.ok (evsI ++ evs2))
          rw [heq2]
        · rw [capturesOf, List.filterMap_append]
          rw [show List.filterMap (fun e => match e with
              | Ev.capture x y hid => some (x, y, hid)
              | _ => none) evsI = capturesOf evsI from rfl,
            show List.filterMap (fun e => match e with
              | Ev.capture x y hid => some (x, y, hid)
              | _ => none) evs2 = capturesOf evs2 from rfl]
          rw [hcapI, List.nil_append, hlen2, hXnext, hH0]
          simp
        · rw [capturesOf, List.filterMap_append,
            show List.filterMap (fun e => match e with
              | Ev.capture x y hid => some (x, y, hid)
              | _ => none) evsI = capturesOf evsI from rfl,
            show List.filterMap (fun e => match e with
              | Ev.capture x y hid => some (x, y, hid)
              | _ => none) evs2 = capturesOf evs2 from rfl,
            hcapI, List.nil_append]
          exact hpw2
        · rw [capturesOf, List.filterMap_append,
            show List.filterMap (fun e => match e with
              | Ev.capture x y hid => some (x, y, hid)
              | _ => none) evsI = capturesOf evsI from rfl,
            show List.filterMap (fun e => match e with
              | Ev.capture x y hid => some (x, y, hid)
              | _ => none) evs2 = capturesOf evs2 from rfl,
            hcapI, List.nil_append]
          intro t ht
          have := hxlb2 t ht
          omega
        · rw [capturesOf, List.filterMap_append,
            show List.filterMap (fun e => match e with
              | Ev.capture x y hid => some (x, y, hid)
              | _ => none) evsI = capturesOf evsI from rfl,
            show List.filterMap (fun e => match e with
              | Ev.capture x y hid => some (x, y, hid)
              | _ => none) evs2 = capturesOf evs2 from rfl,
            hcapI, List.nil_append]
          exact hhid2
        · rw [List.filter_append]
          exact seqPat_append _ _ hseqI hseq2
      case neg =>
        rw [if_neg hH0] at heqI
        have hff : (first && decide (cdiv H h = 0)) = false := by simp [hH0]
        rw [hff] at heqI
        have hXnext : W - (min x (W - w) + w) = W - x - w := by omega
        have hfo2 : cdiv (W - (min x (W - w) + w)) w < fo := by rw [hXnext]; omega
        obtain ⟨evs2, heq2, hlen2, hpw2, hxlb2, hhid2, hseq2⟩ :=
          ih fi (min x (W - w) + w) false (idx + cdiv H h) hfo2 hfi
        have hcapApp : capturesOf (evsI ++ evs2) = capturesOf evsI ++ capturesOf evs2 := by
          rw [capturesOf, List.filterMap_append]
          rfl
        have hb_gt : ∀ b ∈ capturesOf evs2, min x (W - w) < b.1 := by
          intro b hb
          have hlb := hxlb2 b hb
          have hne2 : (capturesOf evs2).length ≠ 0 := by
            intro h0
            rw [List.length_eq_zero] at h0
            rw [h0] at hb
            cases hb
          have hm1 : cdiv (W - (min x (W - w) + w)) w ≠ 0 := by
            intro hz
            rw [hlen2, hz] at hne2
            simp at hne2
          rw [hXnext] at hm1
          have hpos : 0 < W - x - w := by
            rcases Nat.eq_zero_or_pos (W - x - w) with h0 | h0
            · exfalso
              apply hm1
              rw [h0]
              exact (cdiv_eq_zero_iff 0 w hw).mpr rfl
            · exact h0
          omega
        refine ⟨evsI ++ evs2, ?_, ?_, ?_, ?_, ?_, ?_⟩
        · rw [outerTileLoop, if_pos hx, heqI]
          show (match outerTileLoop cleanOracle W H w h fo fi (min x (W - w) + w) false
              (idx + cdiv H h) with
            | none => none
            | some (Except.error e) => some (Except.error e)
            | some (Except.ok evsB) => some (Except.ok (evsI ++ evsB)))
            = some (Except.ok (evsI ++ evs2))
          rw [heq2]
        · rw [hcapApp, List.length_append, hlenI, hlen2, hXnext, hmstep, Nat.succ_mul]
          omega
        · rw [hcapApp, List.pairwise_append]
          refine ⟨?_, hpw2, ?_⟩
          · refine hpwI.imp_of_mem ?_
            intro a b ha hb hab
            right
            rw [hxsI a ha, hxsI b hb]
            exact ⟨rfl, hab⟩
          · intro a ha b hb
            left
            rw [hxsI a ha]
            exact hb_gt b hb
        · rw [hcapApp]
          intro t ht
          rcases List.mem_append.mp ht with ht | ht
          · rw [hxsI t ht]
          · have := hb_gt t ht
            omega
        · rw [hcapApp]
          have hlenIpos : capturesOf evsI ≠ [] := by
            intro h0
            rw [h0] at hlenI
            simp at hlenI
            omega
          obtain ⟨c, restI, hcr⟩ := List.exists_cons_of_ne_nil hlenIpos
          rw [hcr]
          rw [hcr] at hhidI
          obtain ⟨hc1, hc2⟩ := hhidI
          refine ⟨hc1, ?_⟩
          intro u hu
          rcases List.mem_append.mp hu with hu | hu
          · exact hc2 u hu
          · exact hiddenPat_false_all _ hhid2 u hu
        · rw [List.filter_append]
          exact seqPat_append _ _ hseqI hseq2

/-! ## Claim theorems on the tile loop -/

/-- Claim C4: under the clamped-scroll model, a full-page session over a
`W x H` page with a `w x h` viewport captures exactly
`ceil(W/w) * ceil(H/h)` tiles (`cdiv` is ceiling division). -/
theorem tileCount (W H w h : Nat) (hw : 0 < w) (hh : 0 < h) :
    ∃ evs, outerTileLoop cleanOracle W H w h (W + 1) (H + 1) 0 true 0 = some (.ok evs) ∧
      (capturesOf evs).length = cdiv W w * cdiv H h := by
  obtain ⟨evs, h1, h2, _⟩ := outerTileLoop_clean W H w h hw hh (W + 1) (H + 1) 0 true 0
    (by simpa using cdiv_lt_succ W w hw) (cdiv_lt_succ H h hh)
  refine ⟨evs, h1, ?_⟩
  simpa using h2

/-- Witness for `tileCount`: the 3000x4000 page with a 1000x800 viewport
yields 15 tiles. -/
theorem tileCount_witness :
    0 < 1000 ∧ 0 < 800 ∧ cdiv 3000 1000 * cdiv 4000 800 = 15 ∧
    (∃ evs, outerTileLoop cleanOracle 3000 4000 1000 800 3001 4001 0 true 0
        = some (.ok evs) ∧
      (capturesOf evs).length = cdiv 3000 1000 * cdiv 4000 800) :=
  ⟨by decide, by decide, by decide, tileCount 3000 4000 1000 800 (by decide) (by decide)⟩

/-- Claim C6: in every full-page session the first captured tile has the
fixed elements visible (no hide call has run), and every tile from the
second onward is captured with them hidden. -/
theorem hideDiscipline (W H w h : Nat) (hw : 0 < w) (hh : 0 < h) :
    ∃ evs, outerTileLoop cleanOracle W H w h (W + 1) (H + 1) 0 true 0 = some (.ok evs) ∧
      HiddenPat true (capturesOf evs) := by
  obtain ⟨evs, h1, _, _, _, h5, _⟩ := outerTileLoop_clean W H w h hw hh (W + 1) (H + 1) 0 true 0
    (by simpa using cdiv_lt_succ W w hw) (cdiv_lt_succ H h hh)
  exact ⟨evs, h1, h5⟩

/-- Witness for `hideDiscipline`: in the 15-tile scenario the hidden
flags are `false` for the first tile and `true` for the other 14. -/
theorem hideDiscipline_witness :
    0 < 1000 ∧ 0 < 800 ∧
    (∃ evs, outerTileLoop cleanOracle 3000 4000 1000 800 3001 4001 0 true 0
        = some (.ok evs) ∧ HiddenPat true (capturesOf evs)) ∧
    (match outerTileLoop cleanOracle 3000 4000 1000 800 3001 4001 0 true 0 with
      | some (.ok evs) => (capturesOf evs).map (fun t => t.2.2)
      | _ => []) = false :: List.replicate 14 true :=
  ⟨by decide, by decide, hideDiscipline 3000 4000 1000 800 (by decide) (by decide), by decide⟩

/-- Claim C2 (amended): tiles are captured strictly sequentially in
column-major order — all tiles of one column, top to bottom, before any
tile of the next column (the outer loop walks `x`, the inner loop `y`)
— and the hide-free trace is a sequence of scroll/settle/capture
blocks, so tile N+1's scroll begins only after tile N's settle delay
and snapshot completed. -/
theorem captureOrder (W H w h : Nat) (hw : 0 < w) (hh : 0 < h) :
    ∃ evs, outerTileLoop cleanOracle W H w h (W + 1) (H + 1) 0 true 0 = some (.ok evs) ∧
      List.Pairwise colMajorLt (capturesOf evs) ∧
      seqPat (evs.filter notHide) = true := by
  obtain ⟨evs, h1, _, h3, _, _, h6⟩ := outerTileLoop_clean W H w h hw hh (W + 1) (H + 1) 0 true 0
    (by simpa using cdiv_lt_succ W w hw) (cdiv_lt_succ H h hh)
  exact ⟨evs, h1, h3, h6⟩

/-- Witness for `captureOrder` at the 2x2-tile scenario. -/
theorem captureOrder_witness :
    0 < 1000 ∧ 0 < 800 ∧
    (∃ evs, outerTileLoop cleanOracle 2000 1600 1000 800 2001 1601 0 true 0
        = some (.ok evs) ∧
      List.Pairwise colMajorLt (capturesOf evs) ∧
      seqPat (evs.filter notHide) = true) :=
  ⟨by decide, by decide, captureOrder 2000 1600 1000 800 (by decide) (by decide)⟩

/-- Claim C2, counterexample to the claimed row-major order: on a 2x2
grid the second captured tile is `(0, 800)` — the next row of the same
column — while row-major order requires all of row `y = 0` (in
particular `(1000, 0)`) to be captured first. -/
theorem captureOrder_rowMajor_cex :
    (match outerTileLoop cleanOracle 2000 1600 1000 800 2001 1601 0 true 0 with
      | some (.ok evs) => some (capturesOf evs)
      | _ => none)
      = some [(0, 0, false), (0, 800, true), (1000, 0, true), (1000, 800, true)] ∧
    ¬ List.Pairwise rowMajorLt
      [(0, 0, false), (0, 800, true), (1000, 0, true), (1000, 800, true)] := by
  constructor
  · decide
  · intro hp
    have h1 := (List.pairwise_cons.mp (List.pairwise_cons.mp hp).2).1
      (1000, 0, true) (by simp)
    have h2 : (800 : Nat) < 0 ∨ ((800 : Nat) = 0 ∧ (0 : Nat) < 1000) := h1
    rcases h2 with h | ⟨h, _⟩ <;> omega

/-- One column of the loop finishes within fuel `cdiv (H - y) h + 1`
under any oracle: either some platform call fails (the loop aborts with
that error) or the column completes with the clamped column anchor. -/
theorem innerTileLoop_total (o : Oracle) (W H w h : Nat) (hh : 0 < h) :
    ∀ fi x y first idx, cdiv (H - y) h < fi →
      (∃ e, innerTileLoop o W H w h fi x y first idx = some (.error e)) ∨
      (∃ ff idxf evs, innerTileLoop o W H w h fi x y first idx
        = some (.ok ((if cdiv (H - y) h = 0 then x else min x (W - w)), ff, idxf, evs))) := by
  intro fi
  induction fi with
  | zero => intro x y first idx hfi; omega
  | succ fi ih =>
    intro x y first idx hfi
    by_cases hy : y < H
    case neg =>
      have hn : cdiv (H - y) h = 0 := by
        rw [cdiv_eq_zero_iff _ _ hh]; omega
      right
      exact ⟨first, idx, [], by simp [innerTileLoop, hy, hn]⟩
    case pos =>
      have hHy : 0 < H - y := by omega
      have hn : cdiv (H - y) h = cdiv (H - y - h) h + 1 := cdiv_succ _ _ hHy hh
      have hn0 : ¬ (cdiv (H - y) h = 0) := by omega
      have hclamp : H - (min y (H - h) + h) = H - y - h := by omega
      have hfi2 : cdiv (H - (min y (H - h) + h)) h < fi := by rw [hclamp]; omega
      rcases hsc : o.scrollErr idx with _ | e
      case some =>
        left
        refine ⟨e, ?_⟩
        rw [innerTileLoop, if_pos hy]
        simp only [hsc]
      case none =>
        rcases hcp : o.captureErr idx with _ | e
        case some =>
          left
          refine ⟨e, ?_⟩
          rw [innerTileLoop, if_pos hy]
          simp only [hsc, hcp]
        case none =>
          rcases ih (min x (W - w)) (min y (H - h) + h) false (idx + 1) hfi2 with
            ⟨e, he⟩ | ⟨ff, idxf, evs, he⟩
          · left
            refine ⟨e, ?_⟩
            rw [innerTileLoop, if_pos hy]
            simp only [hsc, hcp]
            rw [he]
          · right
            have hminmin : min (min x (W - w)) (W - w) = min x (W - w) := by omega
            refine ⟨ff, idxf, Ev.scrollReq x y :: Ev.settle ::
              ((if !first then [Ev.hideCall] else [])
                ++ Ev.capture (min x (W - w)) (min y (H - h)) (!first) :: evs), ?_⟩
            rw [innerTileLoop, if_pos hy]
            simp only [hsc, hcp]
            rw [he]
            rw [show (if cdiv (H - (min y (H - h) + h)) h = 0 then min x (W - w)
                else min (min x (W - w)) (W - w)) = min x (W - w) from by
              rw [hminmin, ite_self]]
            rw [if_neg hn0]

/-- The outer loop finishes within fuel `cdiv (W - x) w + 1` under any
oracle. -/
theorem outerTileLoop_total (o : Oracle) (W H w h : Nat) (hw : 0 < w) (hh : 0 < h) :
    ∀ fo fi x first idx, cdiv (W - x) w < fo → cdiv H h < fi →
      (∃ e, outerTileLoop o W H w h fo fi x first idx = some (.error e)) ∨
      (∃ evs, outerTileLoop o W H w h fo fi x first idx = some (.ok evs)) := by
  intro fo
  induction fo with
  | zero => intro fi x first idx hfo; omega
  | succ fo ih =>
    intro fi x first idx hfo hfi
    by_cases hx : x < W
    case neg =>
      right
      exact ⟨[], by simp [outerTileLoop, hx]⟩
    case pos =>
      have hWx : 0 < W - x := by omega
      have hmstep : cdiv (W - x) w = cdiv (W - x - w) w + 1 := cdiv_succ _ _ hWx hw
      have hfi0 : cdiv (H - 0) h < fi := by simpa using hfi
      rcases innerTileLoop_total o W H w h hh fi x 0 first idx hfi0 with
        ⟨e, he⟩ | ⟨ff, idxf, evs, he⟩
      · left
        refine ⟨e, ?_⟩
        rw [outerTileLoop, if_pos hx, he]
      · simp only [Nat.sub_zero] at he
        have hXnext : W - ((if cdiv H h = 0 then x else min x (W - w)) + w)
            = W - x - w := by
          split <;> omega
        have hfo2 : cdiv (W - ((if cdiv H h = 0 then x else min x (W - w)) + w)) w < fo := by
          rw [hXnext]; omega
        rcases ih fi ((if cdiv H h = 0 then x else min x (W - w)) + w) ff idxf hfo2 hfi with
          ⟨e, he2⟩ | ⟨evs2, he2⟩
        · left
          refine ⟨e, ?_⟩
          rw [outerTileLoop, if_pos hx, he]
          show (match outerTileLoop o W H w h fo fi
              ((if cdiv H h = 0 then x else min x (W - w)) + w) ff idxf with
            | none => none
            | some (Except.error e) => some (Except.error e)
            | some (Except.ok evsB) => some (Except.ok (evs ++ evsB)))
            = some (Except.error e)
          rw [he2]
        · right
          refine ⟨evs ++ evs2, ?_⟩
          rw [outerTileLoop, if_pos hx, he]
          show (match outerTileLoop o W H w h fo fi
              ((if cdiv H h = 0 then x else min x (W - w)) + w) ff idxf with
            | none => none
            | some (Except.error e) => some (Except.error e)
            | some (Except.ok evsB) => some (Except.ok (evs ++ evsB)))
            = some (Except.ok (evs ++ evs2))
          rw [he2]

/-- Claim C8: under the clamped-scroll model the tiling loop terminates
for every page and viewport with positive viewport dimensions and under
every oracle: the budget `W + 1` outer and `H + 1` inner steps always
suffices, because each iteration makes strict progress even when the
requested scroll position was clamped at a page boundary. -/
theorem tileLoop_terminates (o : Oracle) (W H w h : Nat) (hw : 0 < w) (hh : 0 < h) :
    (outerTileLoop o W H w h (W + 1) (H + 1) 0 true 0).isSome = true := by
  rcases outerTileLoop_total o W H w h hw hh (W + 1) (H + 1) 0 true 0
      (by simpa using cdiv_lt_succ W w hw) (cdiv_lt_succ H h hh) with
    ⟨e, he⟩ | ⟨evs, he⟩ <;> simp [he]

/-- Witness for `tileLoop_terminates` on a page that exercises clamping
(2500x1700 is not a multiple of the 1000x800 viewport). -/
theorem tileLoop_terminates_witness :
    0 < 1000 ∧ 0 < 800 ∧
    (outerTileLoop cleanOracle 2500 1700 1000 800 2501 1701 0 true 0).isSome = true :=
  ⟨by decide, by decide, tileLoop_terminates cleanOracle 2500 1700 1000 800
    (by decide) (by decide)⟩

/-- Claim C9: the composite canvas handed to the PNG encoder always has
dimensions exactly `(W, H + 50)`, whatever the tile count. -/
theorem compositeDims (W H w h : Nat) (hw : 0 < w) (hh : 0 < h) :
    sessionComposite cleanOracle W H w h = some ⟨W, H + 50⟩ := by
  obtain ⟨evs, h1, _⟩ := outerTileLoop_clean W H w h hw hh (W + 1) (H + 1) 0 true 0
    (by simpa using cdiv_lt_succ W w hw) (cdiv_lt_succ H h hh)
  unfold sessionComposite captureFullPageScreenshot
  rw [h1]
  rfl

/-- Witness for `compositeDims`: the 3000x4000 scenario composites to
3000x4050. -/
theorem compositeDims_witness :
    0 < 1000 ∧ 0 < 800 ∧
    sessionComposite cleanOracle 3000 4000 1000 800 = some ⟨3000, 4050⟩ :=
  ⟨by decide, by decide, by
    have := compositeDims 3000 4000 1000 800 (by decide) (by decide)
    simpa using this⟩

/-- One column under the single-failure oracle: if the failing tile
ordinal `k` falls inside this column, the loop aborts with the failure
message; otherwise the column completes as under the clean oracle. -/
theorem innerTileLoop_fail (isScroll : Bool) (k : Nat) (m : String) (rerr : Option String)
    (W H w h : Nat) (hh : 0 < h) :
    ∀ fi x y first idx, cdiv (H - y) h < fi →
      (idx ≤ k ∧ k < idx + cdiv (H - y) h →
        innerTileLoop (failAt isScroll k m rerr) W H w h fi x y first idx
          = some (.error m)) ∧
      (k < idx ∨ idx + cdiv (H - y) h ≤ k →
        ∃ ff evs, innerTileLoop (failAt isScroll k m rerr) W H w h fi x y first idx
          = some (.ok ((if cdiv (H - y) h = 0 then x else min x (W - w)), ff,
              idx + cdiv (H - y) h, evs))) := by
  intro fi
  induction fi with
  | zero => intro x y first idx hfi; omega
  | succ fi ih =>
    intro x y first idx hfi
    by_cases hy : y < H
    case neg =>
      have hn : cdiv (H - y) h = 0 := by
        rw [cdiv_eq_zero_iff _ _ hh]; omega
      constructor
      · intro hcond
        omega
      · intro _
        exact ⟨first, [], by simp [innerTileLoop, hy, hn]⟩
    case pos =>
      have hHy : 0 < H - y := by omega
      have hn : cdiv (H - y) h = cdiv (H - y - h) h + 1 := cdiv_succ _ _ hHy hh
      have hn0 : ¬ (cdiv (H - y) h = 0) := by omega
      have hclamp : H - (min y (H - h) + h) = H - y - h := by omega
      have hfi2 : cdiv (H - (min y (H - h) + h)) h < fi := by rw [hclamp]; omega
      by_cases hik : idx = k
      case pos =>
        subst hik
        constructor
        · intro _
          cases isScroll
          case true =>
            have hse : (failAt true idx m rerr).scrollErr idx = some m := by
              simp [failAt]
            rw [innerTileLoop, if_pos hy]
            simp only [hse]
          case false =>
            have hse : (failAt false idx m rerr).scrollErr idx = none := by
              simp [failAt]
            have hce : (failAt false idx m rerr).captureErr idx = some m := by
              simp [failAt]
            rw [innerTileLoop, if_pos hy]
            simp only [hse, hce]
        · intro hcond
          exfalso
          rcases hcond with hlt | hle <;> omega
      case neg =>
        have hbk : (idx == k) = false := by
          simpa using hik
        have hse : (failAt isScroll k m rerr).scrollErr idx = none := by
          simp [failAt, hbk, hik]
        have hce : (failAt isScroll k m rerr).captureErr idx = none := by
          simp [failAt, hbk, hik]
        obtain ⟨ihErr, ihOk⟩ := ih (min x (W - w)) (min y (H - h) + h) false (idx + 1) hfi2
        rw [hclamp] at ihErr ihOk
        have hminmin : min (min x (W - w)) (W - w) = min x (W - w) := by omega
        constructor
        · intro ⟨h1, h2⟩
          have he := ihErr ⟨by omega, by omega⟩
          rw [innerTileLoop, if_pos hy]
          simp only [hse, hce]
          rw [he]
        · intro hcond
          obtain ⟨ff, evs, he⟩ := ihOk (by omega)
          refine ⟨ff, Ev.scrollReq x y :: Ev.settle ::
            ((if !first then [Ev.hideCall] else [])
              ++ Ev.capture (min x (W - w)) (min y (H - h)) (!first) :: evs), ?_⟩
          rw [innerTileLoop, if_pos hy]
          simp only [hse, hce]
          rw [he]
          rw [show (if cdiv (H - y - h) h = 0 then min x (W - w)
              else min (min x (W - w)) (W - w)) = min x (W - w) from by
            rw [hminmin, ite_self]]
          rw [if_neg hn0]
          have hidx : idx + 1 + cdiv (H - y - h) h = idx + cdiv (H - y) h := by omega
          rw [hidx]

/-- The outer loop under the single-failure oracle: if the failing tile
ordinal falls inside the session's grid, the loop aborts with the
failure message; otherwise it completes. -/
theorem outerTileLoop_fail (isScroll : Bool) (k : Nat) (m : String) (rerr : Option String)
    (W H w h : Nat) (hw : 0 < w) (hh : 0 < h) :
    ∀ fo fi x first idx, cdiv (W - x) w < fo → cdiv H h < fi →
      (idx ≤ k ∧ k < idx + cdiv (W - x) w * cdiv H h →
        outerTileLoop (failAt isScroll k m rerr) W H w h fo fi x first idx
          = some (.error m)) ∧
      (k < idx ∨ idx + cdiv (W - x) w * cdiv H h ≤ k →
        ∃ evs, outerTileLoop (failAt isScroll k m rerr) W H w h fo fi x first idx
          = some (.ok evs)) := by
  intro fo
  induction fo with
  | zero => intro fi x first idx hfo; omega
  | succ fo ih =>
    intro fi x first idx hfo hfi
    by_cases hx : x < W
    case neg =>
      have hm : cdiv (W - x) w = 0 := by
        rw [cdiv_eq_zero_iff _ _ hw]; omega
      constructor
      · intro hcond
        rw [hm] at hcond
        omega
      · intro _
        exact ⟨[], by simp [outerTileLoop, hx]⟩
    case pos =>
      have hWx : 0 < W - x := by omega
      have hmstep : cdiv (W - x) w = cdiv (W - x - w) w + 1 := cdiv_succ _ _ hWx hw
      have hmul : cdiv (W - x) w * cdiv H h
          = cdiv H h + cdiv (W - x - w) w * cdiv H h := by
        rw [hmstep, Nat.succ_mul]
        omega
      have hfi0 : cdiv (H - 0) h < fi := by simpa using hfi
      obtain ⟨innErr, innOk⟩ :=
        innerTileLoop_fail isScroll k m rerr W H w h hh fi x 0 first idx hfi0
      simp only [Nat.sub_zero] at innErr innOk
      have hXnext : W - ((if cdiv H h = 0 then x else min x (W - w)) + w)
          = W - x - w := by
        split <;> omega
      constructor
      · intro ⟨h1, h2⟩
        by_cases hk : k < idx + cdiv H h
        case pos =>
          have he := innErr ⟨h1, hk⟩
          rw [outerTileLoop, if_pos hx, he]
        case neg =>
          obtain ⟨ff, evs, he⟩ := innOk (by omega)
          obtain ⟨recErr, _⟩ := ih fi ((if cdiv H h = 0 then x else min x (W - w)) + w)
            ff (idx + cdiv H h) (by rw [hXnext]; omega) hfi
          have he2 := recErr (by rw [hXnext]; omega)
          rw [outerTileLoop, if_pos hx, he]
          show (match outerTileLoop (failAt isScroll k m rerr) W H w h fo fi
              ((if cdiv H h = 0 then x else min x (W - w)) + w) ff (idx + cdiv H h) with
            | none => none
            | some (Except.error e) => some (Except.error e)
            | some (Except.ok evsB) => some (Except.ok (evs ++ evsB)))
            = some (Except.error m)
          rw [he2]
      · intro hcond
        obtain ⟨ff, evs, he⟩ := innOk (by omega)
        obtain ⟨_, recOk⟩ := ih fi ((if cdiv H h = 0 then x else min x (W - w)) + w)
          ff (idx + cdiv H h) (by rw [hXnext]; omega) hfi
        obtain ⟨evs2, he2⟩ := recOk (by rw [hXnext]; omega)
        refine ⟨evs ++ evs2, ?_⟩
        rw [outerTileLoop, if_pos hx, he]
        show (match outerTileLoop (failAt isScroll k m rerr) W H w h fo fi
            ((if cdiv H h = 0 then x else min x (W - w)) + w) ff (idx + cdiv H h) with
          | none => none
          | some (Except.error e) => some (Except.error e)
          | some (Except.ok evsB) => some (Except.ok (evs ++ evsB)))
          = some (Except.ok (evs ++ evs2))
        rw [he2]

/-- Claim C5: if the scroll injection or the snapshot call fails on any
tile `k` of the session's grid (with any behaviour of the restore step),
the session returns the uniform record `{success := false, message}`
carrying the platform error — no exception escapes the boundary — and
exactly one restore attempt is made, a failure of which is swallowed. -/
theorem failurePropagation (isScroll : Bool) (k : Nat) (m : String) (rerr : Option String)
    (W H w h : Nat) (hw : 0 < w) (hh : 0 < h)
    (hk : k < cdiv W w * cdiv H h) :
    captureScreenshot (failAt isScroll k m rerr) W H w h
      = some (⟨false, m⟩, 1) := by
  obtain ⟨outErr, _⟩ := outerTileLoop_fail isScroll k m rerr W H w h hw hh
    (W + 1) (H + 1) 0 true 0
    (by simpa using cdiv_lt_succ W w hw) (cdiv_lt_succ H h hh)
  have he := outErr ⟨Nat.zero_le k, by simpa using hk⟩
  unfold captureScreenshot captureFullPageScreenshot
  rw [he]

/-- Witness for `failurePropagation`: a snapshot failure on tile 7 of
the 15-tile scenario, with the restore step itself failing, still
reports the original platform error with one restore attempt. -/
theorem failurePropagation_witness :
    0 < 1000 ∧ 0 < 800 ∧ 6 < cdiv 3000 1000 * cdiv 4000 800 ∧
    captureScreenshot (failAt false 6 "platform error" (some "restore failed"))
      3000 4000 1000 800 = some (⟨false, "platform error"⟩, 1) :=
  ⟨by decide, by decide, by decide,
    failurePropagation false 6 "platform error" (some "restore failed")
      3000 4000 1000 800 (by decide) (by decide) (by decide)⟩

/-! ## Page-state save/hide/restore (`background.js` lines 261-393)

The observed document is modelled with inline styles of the root and
body elements as property lists, and each element carrying its
stylesheet-computed position/display, its inline style overrides, and
two expando slots: the source's restore function assigns
`item.element.display` and `item.element.position` — plain properties
on the DOM element object, not `item.element.style.display` /
`item.element.style.position` — so the model gives those assignments
their own fields, distinct from the inline style that rendering uses. -/

/-- One element of the observed document. -/
structure DomElem where
  basePosition : String
  baseDisplay : String
  inlineDisplay : Option String := none
  inlinePosition : Option String := none
  expandoDisplay : Option String := none
  expandoPosition : Option String := none
deriving DecidableEq

/-- `getComputedStyle(el).display`: the inline style wins over the
stylesheet. -/
def computedDisplay (e : DomElem) : String := e.inlineDisplay.getD e.baseDisplay

/-- `getComputedStyle(el).position`. -/
def computedPosition (e : DomElem) : String := e.inlinePosition.getD e.basePosition

/-- The observed document: root/body inline styles (`style.cssText` as a
property list), the elements, the scroll offset and the page/viewport
geometry used for scroll clamping. -/
structure PageDoc where
  htmlCss : List (String × String)
  bodyCss : List (String × String)
  elems : List DomElem
  scrollX : Nat
  scrollY : Nat
  pageW : Nat
  pageH : Nat
  viewW : Nat
  viewH : Nat
deriving DecidableEq

/-- The scratch globals the source stashes on `window`
(`_originalScrollX/Y`, `_originalScrollbarStyles`, `_fixedElements`,
the latter as (element index, original display, original position)). -/
structure WinState where
  origScrollX : Option Nat := none
  origScrollY : Option Nat := none
  origStyles : Option ((List (String × String)) × (List (String × String))) := none
  fixedRecs : Option (List (Nat × String × String)) := none
deriving DecidableEq

/-- `style.overflow = 'hidden'` on a `cssText` property list. -/
def setProp (css : List (String × String)) (key v : String) : List (String × String) :=
  if css.any (fun p => p.1 = key) then
    css.map (fun p => if p.1 = key then (key, v) else p)
  else css ++ [(key, v)]

/-- `saveScrollPosition` (lines 261-274). -/
def saveScrollPosition (st : PageDoc × WinState) : PageDoc × WinState :=
  (st.1, { st.2 with origScrollX := some st.1.scrollX, origScrollY := some st.1.scrollY })

/-- One step of the `querySelectorAll('*').forEach` scan of lines
336-352: a fixed, visible element is recorded (unless already recorded)
with its computed display/position and hidden via
`el.style.display = 'none'`. -/
def hideScanStep (st : PageDoc × WinState) (i : Nat) : PageDoc × WinState :=
  match st.1.elems[i]? with
  | none => st
  | some e =>
    if computedPosition e = "fixed" ∧ computedDisplay e ≠ "none" then
      let recs := st.2.fixedRecs.getD []
      let recs := if recs.any (fun r => r.1 = i) then recs
        else recs ++ [(i, computedDisplay e, computedPosition e)]
      ({ st.1 with elems := st.1.elems.set i ({ e with inlineDisplay := some "none" }) },
       { st.2 with fixedRecs := some recs })
    else st

/-- `hideFixedElementsAndScrollbars` (lines 323-363): on the first call
of a session it snapshots the root/body `cssText`, sets both overflows
to hidden and initialises `_fixedElements`; every call then scans all
elements. -/
def hideFixedElementsAndScrollbars (st : PageDoc × WinState) : PageDoc × WinState :=
  let st1 :=
    match st.2.origStyles with
    | some _ => st
    | none =>
      ({ st.1 with htmlCss := setProp st.1.htmlCss "overflow" "hidden",
                   bodyCss := setProp st.1.bodyCss "overflow" "hidden" },
       { st.2 with origStyles := some (st.1.htmlCss, st.1.bodyCss),
                   fixedRecs := some [] })
  (List.range st1.1.elems.length).foldl hideScanStep st1

/-- `restoreFixedElementsAndScrollbars` (lines 365-393): reapplies the
saved root/body `cssText` strings, then for each recorded element
assigns `item.element.display = item.originalDisplay` and
`item.element.position = item.originalPosition` — the expando
properties of the element object, as the source does (there is no
`.style.` in those two assignments) — and clears the bookkeeping. -/
def restoreFixedElementsAndScrollbars (st : PageDoc × WinState) : PageDoc × WinState :=
  match st.2.origStyles with
  | none => st
  | some p =>
    let doc := { st.1 with htmlCss := p.1, bodyCss := p.2 }
    let doc := (st.2.fixedRecs.getD []).foldl (fun d r =>
      match d.elems[r.1]? with
      | none => d
      | some e =>
        let e2 : DomElem :=
          { e with expandoDisplay := some r.2.1, expandoPosition := some r.2.2 }
        { d with elems := d.elems.set r.1 e2 }) doc
    (doc, { st.2 with origStyles := none, fixedRecs := none })

/-- `restoreScrollPosition` (lines 276-290): `window.scrollTo` with the
saved offsets, clamped by the platform to the scrollable range. -/
def restoreScrollPosition (st : PageDoc × WinState) : PageDoc × WinState :=
  match st.2.origScrollX, st.2.origScrollY with
  | some sx, some sy =>
    ({ st.1 with scrollX := min sx (st.1.pageW - st.1.viewW),
                 scrollY := min sy (st.1.pageH - st.1.viewH) }, st.2)
  | _, _ => st

/-- The observable state of a document: scroll offset, root/body inline
styles, and each element's computed display and position (what
rendering uses; the expando properties are invisible to rendering). -/
def observation (d : PageDoc) :
    Nat × Nat × List (String × String) × List (String × String) × List (String × String) :=
  (d.scrollX, d.scrollY, d.htmlCss, d.bodyCss,
    d.elems.map (fun e => (computedDisplay e, computedPosition e)))

/-- `n` successive hide calls. -/
def hideIter : Nat → (PageDoc × WinState) → PageDoc × WinState
  | 0, st => st
  | n + 1, st => hideIter n (hideFixedElementsAndScrollbars st)

/-- The save / hide^n / restore / restore-scroll pipeline of one
session. -/
def restorePipeline (st : PageDoc × WinState) (n : Nat) : PageDoc × WinState :=
  restoreScrollPosition (restoreFixedElementsAndScrollbars (hideIter n (saveScrollPosition st)))

/-- A document with a single fixed, visible element. -/
def fixedDoc : PageDoc :=
  { htmlCss := [], bodyCss := [],
    elems := [{ basePosition := "fixed", baseDisplay := "block" }],
    scrollX := 120, scrollY := 340,
    pageW := 2000, pageH := 3000, viewW := 1000, viewH := 800 }

/-- Claim C1, evaluated at the failing input: after save, one (or two)
hide calls and both restore calls, the fixed element's computed display
is still `none` — the restore wrote the element's expando `display`
property instead of `element.style.display`, so the document is not
observationally restored, even though the scroll offset and the
root/body style strings are. -/
theorem restore_leaves_fixed_hidden :
    (restorePipeline (fixedDoc, {}) 1).1.elems.map computedDisplay = ["none"] ∧
    fixedDoc.elems.map computedDisplay = ["block"] ∧
    observation (restorePipeline (fixedDoc, {}) 1).1 ≠ observation fixedDoc ∧
    (restorePipeline (fixedDoc, {}) 2).1.elems.map computedDisplay = ["none"] ∧
    (restorePipeline (fixedDoc, {}) 1).1.scrollX = fixedDoc.scrollX ∧
    (restorePipeline (fixedDoc, {}) 1).1.scrollY = fixedDoc.scrollY ∧
    (restorePipeline (fixedDoc, {}) 1).1.htmlCss = fixedDoc.htmlCss ∧
    (restorePipeline (fixedDoc, {}) 1).1.bodyCss = fixedDoc.bodyCss := by
  refine ⟨by decide, by decide, by decide, by decide, by decide, by decide, by decide, by decide⟩

end StampShot
